import Mathlib

/-!
Shallow embedding of the gh-trending-tracker core (src/trending_scraper.py,
src/filter.py, src/scheduler.py) and proofs about the spec's claims.

Python strings are modelled as `List Char` where character-level operations
matter (replace / strip / lower / split), and as `String` at structure
boundaries.  Python `datetime` values are modelled as abstract `Int`
timestamps.  Fallible Python code is modelled with `Option` / `Except`.
-/

deriving instance DecidableEq for Except

namespace GhTrending

/-! ### Character-level models of the Python string primitives -/

/-- Characters treated as whitespace by `str.strip()` / `\s` (ASCII subset). -/
def isPySpace (c : Char) : Bool :=
  c = ' ' || c = '\t' || c = '\n' || c = '\r' || c.toNat = 11 || c.toNat = 12

/-- `s.startswith(pat)` on character lists. -/
def listStartsWith (s pat : List Char) : Bool :=
  match s, pat with
  | _, [] => true
  | [], _ :: _ => false
  | a :: as, b :: bs => a = b && listStartsWith as bs

/-- Substring test: Python's `pat in s`. -/
def containsSub (s pat : List Char) : Bool :=
  match s with
  | [] => pat.isEmpty
  | _ :: cs => listStartsWith s pat || containsSub cs pat

/-- Fuel-driven worker for `pyReplace`; the fuel starts at the length of the
string, which bounds the number of scanning steps. -/
def pyReplaceAux (pat rep : List Char) : Nat → List Char → List Char
  | 0, s => s
  | _ + 1, [] => []
  | fuel + 1, c :: cs =>
    if listStartsWith (c :: cs) pat then
      rep ++ pyReplaceAux pat rep fuel ((c :: cs).drop pat.length)
    else
      c :: pyReplaceAux pat rep fuel cs

/-- Python `s.replace(pat, rep)`: replaces every non-overlapping occurrence,
scanning left to right.  All call sites in this development use a non-empty
pattern, so the Python empty-pattern behaviour is not modelled. -/
def pyReplace (pat rep s : List Char) : List Char :=
  pyReplaceAux pat rep s.length s

/-- Python `s.strip()` (whitespace-only form). -/
def pyStrip (s : List Char) : List Char :=
  ((s.dropWhile isPySpace).reverse.dropWhile isPySpace).reverse

/-- ASCII lowercasing of one character (explicit table, mirroring what
`str.lower()` does on the ASCII range). -/
def pyLowerChar (c : Char) : Char :=
  match c with
  | 'A' => 'a' | 'B' => 'b' | 'C' => 'c' | 'D' => 'd' | 'E' => 'e' | 'F' => 'f'
  | 'G' => 'g' | 'H' => 'h' | 'I' => 'i' | 'J' => 'j' | 'K' => 'k' | 'L' => 'l'
  | 'M' => 'm' | 'N' => 'n' | 'O' => 'o' | 'P' => 'p' | 'Q' => 'q' | 'R' => 'r'
  | 'S' => 's' | 'T' => 't' | 'U' => 'u' | 'V' => 'v' | 'W' => 'w' | 'X' => 'x'
  | 'Y' => 'y' | 'Z' => 'z'
  | other => other

/-- Python `s.lower()` (ASCII subset, which covers every value flowing through
the scraper's number parser). -/
def pyLower (s : List Char) : List Char :=
  s.map pyLowerChar

/-- Python `s.split(sep)` for a single-character separator. -/
def pySplitOnChar (sep : Char) : List Char → List (List Char)
  | [] => [[]]
  | c :: cs =>
    match pySplitOnChar sep cs with
    | [] => [[]]
    | seg :: segs => if c = sep then [] :: seg :: segs else (c :: seg) :: segs

/-- `re.sub(r'\s+', '', s)`: drop every whitespace character. -/
def removeAllWhitespace (s : List Char) : List Char :=
  s.filter (fun c => !isPySpace c)

/-- Characters before the first occurrence of `pat`: `s.split(pat)[0]`. -/
def takeBeforeSub (pat : List Char) : List Char → List Char
  | [] => []
  | c :: cs => if listStartsWith (c :: cs) pat then [] else c :: takeBeforeSub pat cs

/-! ### Model of CPython `float()` / `int()` conversion

`float(text)` produces a double: a finite value, an infinity (for the literals
`inf` / `infinity`, or for decimal literals whose exact value rounds past the
largest finite double), or a NaN.  Finite doubles are idealized as exact
rationals; this is exact on every input appearing in the claims.  `int(x)`
truncates a finite value toward zero, raises `ValueError` on NaN and raises
`OverflowError` on an infinity. -/

inductive PyFloat where
  | finite (q : Rat)
  | infinite (neg : Bool)
  | nan
  deriving Repr, DecidableEq

/-- Whether `c` is an ASCII decimal digit (code points 48 to 57). -/
def isAsciiDigit (c : Char) : Bool :=
  48 ≤ c.toNat && c.toNat ≤ 57

/-- Decimal digit value of an ASCII character. -/
def digitVal (c : Char) : Option Nat :=
  if isAsciiDigit c then some (c.toNat - 48) else none

/-- Value of a digit string (most significant first). -/
def digitsToNat (ds : List Char) : Nat :=
  ds.foldl (fun n c => 10 * n + (digitVal c).getD 0) 0

/-- Mantissa part `digits[.digits]` with at least one digit overall; the value
is returned as (combined digits, number of fractional digits), denoting
`digits / 10 ^ fracLen`. -/
def parseMantissa (cs : List Char) : Option (Nat × Nat) :=
  match pySplitOnChar '.' cs with
  | [ip] =>
    if ip ≠ [] && ip.all isAsciiDigit then some (digitsToNat ip, 0) else none
  | [ip, fp] =>
    if (ip ++ fp) ≠ [] && (ip ++ fp).all isAsciiDigit then
      some (digitsToNat (ip ++ fp), fp.length)
    else none
  | _ => none

/-- Strip one optional leading sign; returns (isNegative, rest). -/
def parseSign : List Char → Bool × List Char
  | '-' :: rest => (true, rest)
  | '+' :: rest => (false, rest)
  | cs => (false, cs)

/-- Decimal literal with optional exponent part, as accepted by `float()`
(underscore grouping is not modelled; no claim exercises it).  The value is
(combined mantissa digits, fractional length, signed exponent), denoting
`digits / 10 ^ fracLen * 10 ^ exp`. -/
def parseDecimalFloat (cs : List Char) : Option (Nat × Nat × Int) :=
  match pySplitOnChar 'e' cs with
  | [m] => (parseMantissa m).map (fun dl => (dl.1, dl.2, (0 : Int)))
  | [m, ex] =>
    match parseMantissa m with
    | none => none
    | some dl =>
      let se := parseSign ex
      if se.2 ≠ [] && se.2.all isAsciiDigit then
        let e : Int := if se.1 then -(digitsToNat se.2 : Int) else (digitsToNat se.2 : Int)
        some (dl.1, dl.2, e)
      else none
  | _ => none

/-- The exact rational `± digits / 10 ^ fracLen * 10 ^ exp`. -/
def decimalToRat (neg : Bool) (digits fracLen : Nat) (exp : Int) : Rat :=
  let sn : Int := if neg then -(digits : Int) else (digits : Int)
  let net : Int := exp - (fracLen : Int)
  if 0 ≤ net then mkRat (sn * ((10 : Int) ^ net.toNat)) 1
  else mkRat sn ((10 : Nat) ^ (-net).toNat)

/-- Exact decimal values whose magnitude reaches this bound round to an
infinity in binary64: the midpoint between the largest finite double and
2^1024, which equals 2^970 * (2^54 - 1). -/
def doubleOverflowNat : Nat :=
  ((2 : Nat) ^ 97) ^ 10 * ((2 : Nat) ^ 54 - 1)

/-- CPython `float(text)` on an already-stripped string. -/
def pyFloatOfChars (cs0 : List Char) : Option PyFloat :=
  let cs := pyLower cs0
  let sb := parseSign cs
  if sb.2 = "inf".data ∨ sb.2 = "infinity".data then some (.infinite sb.1)
  else if sb.2 = "nan".data then some .nan
  else
    match parseDecimalFloat sb.2 with
    | none => none
    | some dle =>
      let q := decimalToRat sb.1 dle.1 dle.2.1 dle.2.2
      if doubleOverflowNat * q.den ≤ q.num.natAbs then some (.infinite sb.1)
      else some (.finite q)

/-- The exact rational `q * m` (multiplication by a natural number, written
with `mkRat` so that it stays evaluable by `decide`). -/
def ratMulNat (q : Rat) (m : Nat) : Rat :=
  mkRat (q.num * (m : Int)) q.den

/-- Truncation toward zero, as in Python `int(x)` on a finite float. -/
def ratTruncToInt (q : Rat) : Int :=
  Int.tdiv q.num (q.den : Int)

/-! ### `GitHubTrendingScraper._parse_number` (src/trending_scraper.py:305) -/

/-- The unit words removed by `_parse_number`, in source order. -/
def unitWords : List (List Char) :=
  ["stars".data, "today".data, "forks".data, "star".data]

/-- The cleaning pipeline of `_parse_number`: drop commas, strip, then for each
unit word lowercase, remove the word and strip again. -/
def cleanNumberText (t : List Char) : List Char :=
  unitWords.foldl (fun acc w => pyStrip (pyReplace w [] (pyLower acc)))
    (pyStrip (pyReplace [','] [] t))

/-- Multiplier detection of `_parse_number`: a `k`/`m`/`b` anywhere in the
lowercased text selects 1e3/1e6/1e9 and every such letter is removed. -/
def splitMultiplier (cleaned : List Char) : Nat × List Char :=
  if (pyLower cleaned).contains 'k' then (1000, pyReplace ['k'] [] (pyLower cleaned))
  else if (pyLower cleaned).contains 'm' then (1000000, pyReplace ['m'] [] (pyLower cleaned))
  else if (pyLower cleaned).contains 'b' then (1000000000, pyReplace ['b'] [] (pyLower cleaned))
  else (1, cleaned)

/-- `GitHubTrendingScraper._parse_number(text)`.  `none` models Python `None`.
The result is `.ok n` for a normal return; `.error` models an exception
escaping the function: `int(float(cleaned) * multiplier)` raises an uncaught
`OverflowError` when the float is infinite, while `ValueError` / `TypeError`
(bad literals, NaN conversion) are caught and give 0. -/
def parse_number (text : Option String) : Except String Int :=
  match text with
  | none => .ok 0
  | some t =>
    if t.data = [] then .ok 0
    else
      let cleaned := cleanNumberText t.data
      let mb := splitMultiplier cleaned
      match pyFloatOfChars mb.2 with
      | none => .ok 0
      | some .nan => .ok 0
      | some (.infinite _) => .error "OverflowError"
      | some (.finite q) => .ok (ratTruncToInt (ratMulNat q mb.1))

/-! ### Data model (src/models.py `Repository`, src/filter.py `RepositoryRecord`)

`datetime` values are abstract `Int` timestamps; pydantic allows `None` for
`first_seen_at` / `last_seen_at`, hence `Option Int`.  `stars_today` models the
dynamically injected attribute set by `_parse_repo_article`. -/

structure Repository where
  name : String
  full_name : String
  description : Option String := none
  html_url : String := ""
  language : Option String := none
  stars : Int := 0
  forks : Int := 0
  watchers : Int := 0
  open_issues : Int := 0
  owner_login : String := ""
  owner_avatar_url : Option String := none
  created_at : Option Int := none
  updated_at : Option Int := none
  pushed_at : Option Int := none
  readme_content : Option String := none
  first_seen_at : Option Int := none
  last_seen_at : Option Int := none
  appearance_count : Int := 1
  stars_today : Int := 0
  deriving Repr, DecidableEq

/-- One row of the `repositories` table (the auto-increment surrogate id is
omitted; `full_name` is the unique key used by every query). -/
structure RepositoryRecord where
  name : String
  full_name : String
  description : Option String := none
  html_url : String := ""
  language : Option String := none
  stars : Int := 0
  forks : Int := 0
  watchers : Int := 0
  open_issues : Int := 0
  owner_login : String := ""
  owner_avatar_url : Option String := none
  created_at : Option Int := none
  updated_at : Option Int := none
  pushed_at : Option Int := none
  readme_content : Option String := none
  first_seen_at : Option Int := none
  last_seen_at : Option Int := none
  appearance_count : Int := 1
  deriving Repr, DecidableEq

/-- `RepositoryRecord.from_model` (src/filter.py:62). -/
def RepositoryRecord.from_model (repo : Repository) : RepositoryRecord :=
  { name := repo.name
    full_name := repo.full_name
    description := repo.description
    html_url := repo.html_url
    language := repo.language
    stars := repo.stars
    forks := repo.forks
    watchers := repo.watchers
    open_issues := repo.open_issues
    owner_login := repo.owner_login
    owner_avatar_url := repo.owner_avatar_url
    created_at := repo.created_at
    updated_at := repo.updated_at
    pushed_at := repo.pushed_at
    readme_content := repo.readme_content
    first_seen_at := repo.first_seen_at
    last_seen_at := repo.last_seen_at
    appearance_count := repo.appearance_count }

/-- Python truthiness of an `Optional[str]`: `None` and `""` are falsy. -/
def optStrTruthy : Option String → Bool
  | none => false
  | some s => !(s == "")

/-! ### The Novelty Store (`RepositoryFilter`, src/filter.py)

The persistent table is modelled as a list of rows in insertion order;
`session.query(...).filter(full_name == x).first()` is the first matching
row. -/

/-- `session.query(RepositoryRecord).filter(full_name == x).first()`. -/
def find_record (store : List RepositoryRecord) (full_name : String) : Option RepositoryRecord :=
  store.find? (fun r => r.full_name == full_name)

/-- The full-name column read performed by `filter_new_repos`
(`session.query(RepositoryRecord.full_name).all()`). -/
def existing_names (store : List RepositoryRecord) : List String :=
  store.map (fun r => r.full_name)

/-- `RepositoryFilter.is_new_repository` (src/filter.py:114).  The
`days_threshold` argument is accepted (a threshold date is computed from it in
the source) but the existence query does not use it.  Returns the boolean
result together with the caller's entry, whose `first_seen_at` is overwritten
from the stored record when one exists. -/
def is_new_repository (store : List RepositoryRecord) (repo : Repository)
    (days_threshold : Option Int) : Bool × Repository :=
  match find_record store repo.full_name with
  | none => (true, repo)
  | some existing => (false, { repo with first_seen_at := existing.first_seen_at })

/-- The per-entry annotation applied by `filter_new_repos` to an entry whose
identifier matches a stored record. -/
def annotate_from_record (record : RepositoryRecord) (repo : Repository) : Repository :=
  { repo with
    first_seen_at := record.first_seen_at
    appearance_count := record.appearance_count + 1 }

/-- The loop body of `filter_new_repos`: first component collects the entries
with no stored record (in input order), second component is the caller's entry
list after the in-place annotations. -/
def filter_new_loop (store : List RepositoryRecord) : List Repository → List Repository × List Repository
  | [] => ([], [])
  | repo :: rest =>
    let r := filter_new_loop store rest
    if (existing_names store).contains repo.full_name then
      match find_record store repo.full_name with
      | some record => (r.1, annotate_from_record record repo :: r.2)
      | none => (r.1, repo :: r.2)
    else
      (repo :: r.1, repo :: r.2)

/-- `RepositoryFilter.filter_new_repos` (src/filter.py:129).  The result is
(store after the call, returned new entries, caller's entries after the call);
the function only reads the store.  `days_threshold` is accepted but unused by
the partitioning. -/
def filter_new_repos (store : List RepositoryRecord) (repos : List Repository)
    (days_threshold : Option Int) : List RepositoryRecord × List Repository × List Repository :=
  let r := filter_new_loop store repos
  (store, r.1, r.2)

/-- The in-place update applied by `save_repositories` to an existing row. -/
def apply_reappearance (repo : Repository) (existing : RepositoryRecord) : RepositoryRecord :=
  { existing with
    last_seen_at := repo.last_seen_at
    stars := repo.stars
    forks := repo.forks
    appearance_count := existing.appearance_count + 1
    readme_content :=
      if optStrTruthy repo.readme_content && !optStrTruthy existing.readme_content then
        repo.readme_content
      else existing.readme_content }

/-- Replace the first row matching `full_name` by its image under `f`
(the ORM mutates the row returned by `.first()` in place). -/
def update_first_record (full_name : String) (f : RepositoryRecord → RepositoryRecord) :
    List RepositoryRecord → List RepositoryRecord
  | [] => []
  | r :: rs =>
    if r.full_name == full_name then f r :: rs
    else r :: update_first_record full_name f rs

/-- `RepositoryFilter.save_repositories` (src/filter.py:156): upsert each entry
in order; a new row is appended (`session.add`), an existing row is updated in
place, and the whole batch is committed at the end. -/
def save_repositories (store : List RepositoryRecord) (repos : List Repository) :
    List RepositoryRecord :=
  repos.foldl
    (fun st repo =>
      match find_record st repo.full_name with
      | some _ => update_first_record repo.full_name (apply_reappearance repo) st
      | none => st ++ [RepositoryRecord.from_model repo])
    store

/-! ### The page scraper (`GitHubTrendingScraper`, src/trending_scraper.py) -/

/-- The owner/name split of `_parse_repo_article` (src/trending_scraper.py:271):
`parts = full_name.split('/')`, owner is `parts[0]` and name is `parts[1]` when
there are at least two parts, else owner is `''` and name is the whole text. -/
def split_identifier (full_name : String) : String × String :=
  match pySplitOnChar '/' full_name.data with
  | p0 :: p1 :: _ => (String.mk p0, String.mk p1)
  | _ => ("", full_name)

/-- The fields `_parse_repo_article` reads from one `article.Box-row` container.
`h2LinkText = none` models a missing `h2 a` element; `allLinkTexts` lists the
text of every `a` element in document order (for the stars-today scan). -/
structure Article where
  h2LinkText : Option String := none
  h2LinkHref : String := ""
  descriptionText : Option String := none
  languageText : Option String := none
  stargazersText : Option String := none
  allLinkTexts : List String := []
  membersText : Option String := none
  avatarSrc : Option String := none
  deriving Repr, DecidableEq

/-- The stars-today link scan: text whose stripped lowercase form contains both
`star` and `today`. -/
def isStarsTodayText (s : String) : Bool :=
  let lt := pyLower (pyStrip s.data)
  containsSub lt "star".data && containsSub lt "today".data

/-- Avatar URL normalization: `url.split('&s=')[0]` when `'&s=' in url`. -/
def normalize_avatar (url : String) : String :=
  if containsSub url.data "&s=".data then String.mk (takeBeforeSub "&s=".data url.data)
  else url

/-- Body of `_parse_repo_article` after the identifying link was found.  Any
exception (in particular an uncaught `OverflowError` escaping `_parse_number`)
is propagated as `.error` and turned into `none` by the caller's
`except Exception` handler. -/
def parseArticleFields (now : Int) (article : Article) (linkText : String) :
    Except String Repository := do
  let full_name := String.mk (removeAllWhitespace linkText.data)
  let stars ← match article.stargazersText with
    | some s => parse_number (some s)
    | none => pure 0
  let stars_today ← match article.allLinkTexts.find? isStarsTodayText with
    | some s => parse_number (some s)
    | none => pure 0
  let forks ← match article.membersText with
    | some s => parse_number (some s)
    | none => pure 0
  let ownerName := split_identifier full_name
  pure
    { name := ownerName.2
      full_name := full_name
      description := article.descriptionText.map (fun s => String.mk (pyStrip s.data))
      html_url := "https://github.com" ++ article.h2LinkHref
      language := article.languageText.map (fun s => String.mk (pyStrip s.data))
      stars := stars
      forks := forks
      watchers := 0
      open_issues := 0
      owner_login := ownerName.1
      owner_avatar_url := article.avatarSrc.map normalize_avatar
      created_at := none
      updated_at := none
      pushed_at := none
      readme_content := none
      first_seen_at := some now
      last_seen_at := some now
      appearance_count := 1
      stars_today := stars_today }

/-- `GitHubTrendingScraper._parse_repo_article` (src/trending_scraper.py:208):
a container without its `h2 a` link yields `None`; an exception anywhere in the
body is caught and also yields `None`. -/
def parse_repo_article (now : Int) (article : Article) : Option Repository :=
  match article.h2LinkText with
  | none => none
  | some linkText =>
    match parseArticleFields now article linkText with
    | .ok repo => some repo
    | .error _ => none

/-- Class constant `MAX_RETRIES` (src/trending_scraper.py:22). -/
def MAX_RETRIES : Nat := 3

/-- Class constant `RETRY_DELAY` in seconds (src/trending_scraper.py:24). -/
def RETRY_DELAY : Nat := 2

/-- Constructor logic `self.max_retries = max_retries or self.MAX_RETRIES`
(src/trending_scraper.py:34); Python `or` also falls back on a falsy 0. -/
def scraper_max_retries (arg : Option Nat) : Nat :=
  match arg with
  | none => MAX_RETRIES
  | some n => if n = 0 then MAX_RETRIES else n

/-- One run of the `for attempt in range(max_retries)` loop of
`_fetch_with_retry` over an explicit list of attempt indices.  `oracle i`
is the outcome of the i-th GET (an `.error` models a raised
`requests.RequestException`).  Result: (parsed page if any attempt succeeded,
number of GET attempts performed, the `time.sleep` durations in order). -/
def fetch_attempts (retry_delay max_retries : Nat)
    (oracle : Nat → Except String (List Article)) :
    List Nat → Option (List Article) × Nat × List Nat
  | [] => (none, 0, [])
  | a :: rest =>
    match oracle a with
    | .ok page => (some page, 1, [])
    | .error _ =>
      let ws := if a < max_retries - 1 then [retry_delay * (a + 1)] else []
      let r := fetch_attempts retry_delay max_retries oracle rest
      (r.1, r.2.1 + 1, ws ++ r.2.2)

/-- `GitHubTrendingScraper._fetch_with_retry` (src/trending_scraper.py:100):
returns `none` after exhausting all attempts, never propagating the request
exception. -/
def fetch_with_retry (max_retries retry_delay : Nat)
    (oracle : Nat → Except String (List Article)) :
    Option (List Article) × Nat × List Nat :=
  fetch_attempts retry_delay max_retries oracle (List.range max_retries)

/-- The metadata returned by one successful `GET /repos/{full_name}` in
`_enrich_repo_from_api`: the parsed timestamps, `open_issues_count` (`.get`
default 0) and, when an `owner` object is present, its `avatar_url`. -/
structure ApiRepoData where
  created_at : Option Int := none
  updated_at : Option Int := none
  pushed_at : Option Int := none
  open_issues_count : Int := 0
  owner : Option (Option String) := none
  deriving Repr, DecidableEq

/-- `GitHubTrendingScraper._enrich_repo_from_api` (src/trending_scraper.py:165):
merges API metadata into the entry; a non-200 response or an exception
(modelled by `.error`) leaves every field of the entry unchanged, and the entry
itself is always returned. -/
def enrich_repo_from_api (api : Repository → Except String ApiRepoData)
    (repo : Repository) : Repository :=
  match api repo with
  | .error _ => repo
  | .ok d =>
    { repo with
      created_at := d.created_at
      updated_at := d.updated_at
      pushed_at := d.pushed_at
      open_issues := d.open_issues_count
      owner_avatar_url :=
        match d.owner with
        | some av => av
        | none => repo.owner_avatar_url }

/-- `GitHubTrendingScraper._enrich_repos_from_api_batch`
(src/trending_scraper.py:132): each entry's enrichment runs in a worker pool
and results are appended in completion order; `completionOrder` is the order
(a permutation of the input positions) in which `as_completed` yields the
futures. -/
def enrich_repos_from_api_batch (api : Repository → Except String ApiRepoData)
    (completionOrder : List Nat) (repos : List Repository) : List Repository :=
  completionOrder.filterMap (fun i => (repos[i]?).map (enrich_repo_from_api api))

/-- `GitHubTrendingScraper.scrape_trending` (src/trending_scraper.py:36):
fetch with retry (empty result when every attempt fails), slice the container
list to `limit`, parse each container skipping failures, then optionally
enrich when both the flag and a truthy token are supplied and the parsed list
is non-empty. -/
def scrape_trending (max_retries retry_delay : Nat)
    (pageOracle : Nat → Except String (List Article)) (now : Int) (limit : Nat)
    (enrich_with_api : Bool) (github_token : Option String)
    (api : Repository → Except String ApiRepoData) (completionOrder : List Nat) :
    List Repository :=
  match (fetch_with_retry max_retries retry_delay pageOracle).1 with
  | none => []
  | some articles =>
    let repos := (articles.take limit).filterMap (parse_repo_article now)
    if enrich_with_api && optStrTruthy github_token && !repos.isEmpty then
      enrich_repos_from_api_batch api completionOrder repos
    else repos

/-! ### The Scheduler (src/scheduler.py)

Two views of `Scheduler._run_task`:

* a transition system over invocations of `_run_task` sharing the
  `threading.Lock`, for the mutual-exclusion claim — the non-blocking
  `acquire` is a single atomic step;
* a functional view of one invocation (try / except / finally around
  `_execute_pipeline`), for the exception-containment claim. -/

/-- Where one `_run_task` invocation stands. -/
inductive TaskPhase where
  | idle
  | running
  | skippedPhase
  | done
  deriving Repr, DecidableEq

/-- Shared state: the `threading.Lock`, the phase of each invocation, and a
counter of pipeline executions started (the side-effect counter of the spec's
concurrency-guard test). -/
structure SchedState where
  lockHeld : Bool
  tasks : List TaskPhase
  pipelineRuns : Nat
  deriving Repr, DecidableEq

/-- Atomic steps of invocation `i` of `_run_task`:
`acquire` is a successful non-blocking `self._lock.acquire(blocking=False)`
followed by entry into the pipeline; `skipStep` is a failed acquire (the
invocation logs and returns, executing no pipeline stage); `finish` is the
`finally: self._lock.release()` at the end of the `try` block. -/
inductive SchedStep : Nat → SchedState → SchedState → Prop where
  | acquire (i : Nat) (s : SchedState) :
      s.tasks[i]? = some .idle → s.lockHeld = false →
      SchedStep i s
        { lockHeld := true, tasks := s.tasks.set i .running,
          pipelineRuns := s.pipelineRuns + 1 }
  | skipStep (i : Nat) (s : SchedState) :
      s.tasks[i]? = some .idle → s.lockHeld = true →
      SchedStep i s { s with tasks := s.tasks.set i .skippedPhase }
  | finish (i : Nat) (s : SchedState) :
      s.tasks[i]? = some .running →
      SchedStep i s
        { lockHeld := false, tasks := s.tasks.set i .done,
          pipelineRuns := s.pipelineRuns }

/-- Initial state: lock free, `n` pending invocations, no pipeline run yet. -/
def initState (n : Nat) : SchedState :=
  { lockHeld := false, tasks := List.replicate n .idle, pipelineRuns := 0 }

/-- States reachable from `initState n` by interleaving invocation steps. -/
inductive SchedReachable (n : Nat) : SchedState → Prop where
  | init : SchedReachable n (initState n)
  | step (i : Nat) (s s' : SchedState) :
      SchedReachable n s → SchedStep i s s' → SchedReachable n s'

/-- Number of invocations currently inside the pipeline. -/
def runningCount (s : SchedState) : Nat :=
  s.tasks.countP (fun p => p == .running)

/-! Functional view of one `_run_task` invocation (src/scheduler.py:68) and of
the pipeline `_execute_pipeline` (src/scheduler.py:84) with its collaborator
stages as oracles. -/

/-- Stage oracles for one `_execute_pipeline` run.  An `.error` models an
exception raised by that stage. -/
structure PipelineStages where
  fetchResult : Except String (List Repository)
  store : List RepositoryRecord
  enrichReadme : Repository → Except String (Option String)
  summarize : Repository → Except String String
  sendOutcome : Except String Unit

/-- `Scheduler._execute_pipeline`: scrape, filter against the store, short
circuit when nothing is new, enrich with READMEs, persist, summarize, send.
The result is (store after the run, number of new entries reported); an
`.error` is an exception escaping the pipeline. -/
def execute_pipeline (env : PipelineStages) : Except String (List RepositoryRecord × Nat) := do
  let repos ← env.fetchResult
  let fr := filter_new_repos env.store repos none
  let new_repos := fr.2.1
  if new_repos.isEmpty then
    return (env.store, 0)
  let enriched ← new_repos.mapM (fun r => do
    let readme ← env.enrichReadme r
    pure { r with readme_content := readme })
  let store2 := save_repositories env.store enriched
  let _summaries ← enriched.mapM env.summarize
  let _ ← env.sendOutcome
  return (store2, enriched.length)

/-- Outcome of one `_run_task` invocation. -/
inductive RunOutcome where
  | completed
  | failed
  | skippedRun
  deriving Repr, DecidableEq

/-- `Scheduler._run_task` as a function of the lock availability: a failed
non-blocking acquire returns immediately; otherwise the pipeline runs under
`try/except Exception/finally`, so an exception becomes a `.failed` outcome
and the lock is released on every path.  Result: (outcome, lock available
afterwards). -/
def run_task (lockAvailable : Bool) (env : PipelineStages) : RunOutcome × Bool :=
  if !lockAvailable then (.skippedRun, false)
  else
    match execute_pipeline env with
    | .ok _ => (.completed, true)
    | .error _ => (.failed, true)

/-- The scheduling loop: each trigger fires `_run_task` in turn, threading the
lock state; the loop itself never stops on a failed run. -/
def scheduler_loop (lockAvailable : Bool) : List PipelineStages → List RunOutcome
  | [] => []
  | env :: rest =>
    let r := run_task lockAvailable env
    r.1 :: scheduler_loop r.2 rest

/-! ### Concrete sample values used to instantiate the theorems -/

/-- A default-initialized scraped entry. -/
def wRepoA : Repository :=
  { name := "r", full_name := "u/r", html_url := "https://github.com/u/r",
    owner_login := "u", first_seen_at := some 100, last_seen_at := some 100 }

/-- A second entry with a different identifier. -/
def wRepoB : Repository :=
  { name := "r2", full_name := "u/r2", html_url := "https://github.com/u/r2",
    owner_login := "u", first_seen_at := some 100, last_seen_at := some 100 }

/-- `wRepoA` with a non-default appearance count. -/
def wRepoCount2 : Repository :=
  { wRepoA with appearance_count := 2 }

/-- A stored row for `wRepoA`'s identifier with an older first-seen time. -/
def wRecOld : RepositoryRecord :=
  { RepositoryRecord.from_model wRepoA with first_seen_at := some 50 }

/-- A metadata oracle that fails on `u/r` and succeeds elsewhere. -/
def apiW : Repository → Except String ApiRepoData :=
  fun r => if r.full_name == "u/r" then .error "500" else .ok { open_issues_count := 7 }

/-- A trending-page container with no `h2 a` link. -/
def badArticle : Article := {}

/-- A parseable trending-page container. -/
def goodArticle : Article :=
  { h2LinkText := some "user/repo", h2LinkHref := "/user/repo" }

/-- A page whose first container is unparseable, followed by two parseable
containers. -/
def pageC10 : List Article := [badArticle, goodArticle, goodArticle]

/-- State after the first of two triggers acquired the lock and entered the
pipeline. -/
def schedS1 : SchedState :=
  { lockHeld := true, tasks := [TaskPhase.running, TaskPhase.idle], pipelineRuns := 1 }

/-- State after the second trigger was discarded by the failed acquire. -/
def schedS2 : SchedState :=
  { lockHeld := true, tasks := [TaskPhase.running, TaskPhase.skippedPhase], pipelineRuns := 1 }

/-- A pipeline whose first stage raises. -/
def envFail : PipelineStages :=
  { fetchResult := .error "boom", store := [],
    enrichReadme := fun _ => .ok none, summarize := fun _ => .ok "",
    sendOutcome := .ok () }

/-! ## Theorems -/

/-- Claim C4: `parseCount` handles the documented formats — `"1,234"` = 1234,
`"5.2k"` = 5200, `"1.5M"` = 1500000, `"234 stars today"` = 234 — and returns 0
on empty, null and unparseable input; but it is NOT total: on the input
`"inf"` the conversion `int(float("inf"))` raises an `OverflowError` that the
`except (ValueError, TypeError)` handler does not catch, so the claimed
"never raises" fails on that input. -/
theorem claim_C4_evaluation :
    parse_number (some "1,234") = .ok 1234 ∧
    parse_number (some "5.2k") = .ok 5200 ∧
    parse_number (some "1.5M") = .ok 1500000 ∧
    parse_number (some "234 stars today") = .ok 234 ∧
    parse_number (some "") = .ok 0 ∧
    parse_number none = .ok 0 ∧
    parse_number (some "invalid") = .ok 0 ∧
    parse_number (some "N/A") = .ok 0 ∧
    parse_number (some "inf") = .error "OverflowError" := by
  refine ⟨?_, ?_, ?_, ?_, ?_, ?_, ?_, ?_, ?_⟩ <;> decide

/-! Lemmas about the single-character split used by `split_identifier`. -/

theorem pySplitOnChar_ne_nil (sep : Char) (cs : List Char) : pySplitOnChar sep cs ≠ [] := by
  cases cs with
  | nil => simp [pySplitOnChar]
  | cons c cs' =>
    unfold pySplitOnChar
    cases h : pySplitOnChar sep cs' with
    | nil => simp
    | cons seg segs =>
      by_cases hc : c = sep <;> simp [hc]

theorem pySplitOnChar_no_sep (sep : Char) (cs : List Char) (h : sep ∉ cs) :
    pySplitOnChar sep cs = [cs] := by
  induction cs with
  | nil => rfl
  | cons c cs' ih =>
    have hc : c ≠ sep := fun hc => h (hc ▸ List.mem_cons_self c cs')
    have hcs : sep ∉ cs' := fun hm => h (List.mem_cons_of_mem c hm)
    unfold pySplitOnChar
    rw [ih hcs]
    simp [hc]

theorem pySplitOnChar_head (sep : Char) (cs : List Char) :
    ∃ rest, pySplitOnChar sep cs = cs.takeWhile (fun c => c != sep) :: rest := by
  induction cs with
  | nil => exact ⟨[], rfl⟩
  | cons c cs' ih =>
    obtain ⟨rest, hrest⟩ := ih
    by_cases hc : c = sep
    · exact ⟨cs'.takeWhile (fun x => x != sep) :: rest,
        by simp [pySplitOnChar, hrest, List.takeWhile_cons, hc]⟩
    · exact ⟨rest,
        by simp [pySplitOnChar, hrest, List.takeWhile_cons, hc, bne_iff_ne]⟩

theorem pySplitOnChar_append_sep (sep : Char) (pre post : List Char) (h : sep ∉ pre) :
    pySplitOnChar sep (pre ++ sep :: post) = pre :: pySplitOnChar sep post := by
  induction pre with
  | nil =>
    cases hp : pySplitOnChar sep post with
    | nil => exact absurd hp (pySplitOnChar_ne_nil sep post)
    | cons seg segs => simp [pySplitOnChar, hp]
  | cons c pre' ih =>
    have hc : c ≠ sep := fun hc => h (hc ▸ List.mem_cons_self c pre')
    have hpre : sep ∉ pre' := fun hm => h (List.mem_cons_of_mem c hm)
    cases hp : pySplitOnChar sep post with
    | nil => exact absurd hp (pySplitOnChar_ne_nil sep post)
    | cons seg segs => simp [pySplitOnChar, ih hpre, hp, hc]

/-- Claim C9 (amended): `splitIdentifier` splits on `/`; with no `/` the owner
is empty and the name is the whole text; otherwise the owner is the text
before the first `/` and the name is the SECOND `/`-separated segment (the
text between the first and the second `/`), which equals everything after the
first `/` only when the text contains at most one `/`. -/
theorem claim_C9_amended (s : String) :
    ((¬ '/' ∈ s.data) → split_identifier s = ("", s)) ∧
    (∀ pre post : List Char, s.data = pre ++ '/' :: post → '/' ∉ pre →
      split_identifier s = (String.mk pre, String.mk (post.takeWhile (fun c => c != '/')))) := by
  constructor
  · intro h
    unfold split_identifier
    rw [pySplitOnChar_no_sep '/' s.data h]
  · intro pre post hs hpre
    unfold split_identifier
    rw [hs, pySplitOnChar_append_sep '/' pre post hpre]
    obtain ⟨rest, hrest⟩ := pySplitOnChar_head '/' post
    rw [hrest]

/-- Witness for C9: the amended statement at the two-part identifier `a/b` and
at the slash-free text `abc`. -/
theorem claim_C9_witness :
    split_identifier "a/b" = ("a", "b") ∧ split_identifier "abc" = ("", "abc") := by
  constructor
  · have h := (claim_C9_amended "a/b").2 ['a'] ['b'] rfl (by decide)
    simpa using h
  · exact (claim_C9_amended "abc").1 (by decide)

/-- Counterexample for C9 as stated: on `a/b/c` the name is `b`, not
everything after the first `/` (`b/c`). -/
theorem claim_C9_counterexample :
    split_identifier "a/b/c" = ("a", "b") ∧ ("b" : String) ≠ "b/c" := by
  refine ⟨?_, ?_⟩ <;> decide

/-- Claim C2: `isNew` is true iff no record with the entry's identifier exists,
independently of the `thresholdDays` argument; when a record exists the
caller's entry is annotated with the stored `first_seen_at` and the result is
false. -/
theorem claim_C2 (store : List RepositoryRecord) (repo : Repository) (d d' : Option Int) :
    (is_new_repository store repo d = is_new_repository store repo d') ∧
    ((is_new_repository store repo d).1 = true ↔ find_record store repo.full_name = none) ∧
    (∀ ex, find_record store repo.full_name = some ex →
      is_new_repository store repo d =
        (false, { repo with first_seen_at := ex.first_seen_at })) := by
  refine ⟨rfl, ?_, ?_⟩
  · unfold is_new_repository
    cases h : find_record store repo.full_name <;> simp
  · intro ex hex
    unfold is_new_repository
    rw [hex]

/-- Witness for C2: a stored record makes `isNew` false and annotates the
entry with the stored first-seen time (whatever threshold is supplied); no
record makes it true. -/
theorem claim_C2_witness :
    is_new_repository [wRecOld] wRepoA (some 3) =
      (false, { wRepoA with first_seen_at := some 50 }) ∧
    (is_new_repository [] wRepoA none).1 = true := by
  constructor
  · exact (claim_C2 [wRecOld] wRepoA (some 3) none).2.2 wRecOld rfl
  · exact (claim_C2 [] wRepoA none none).2.1.mpr rfl

/-! Lemmas relating the name-column read of `filter_new_repos` to the
row query. -/

theorem contains_existing_names (store : List RepositoryRecord) (n : String) :
    (existing_names store).contains n = (find_record store n).isSome := by
  induction store with
  | nil => rfl
  | cons r rs ih =>
    show (r.full_name :: existing_names rs).contains n = _
    by_cases h : r.full_name = n
    · simp [find_record, List.find?, h, List.contains_cons]
    · have hb : (r.full_name == n) = false := by simp [h]
      have hb' : (n == r.full_name) = false := by
        simp only [beq_eq_false_iff_ne, ne_eq]
        exact fun he => h he.symm
      simp only [List.contains_cons, hb', Bool.false_or, find_record, List.find?, hb]
      exact ih

theorem filter_new_loop_spec (store : List RepositoryRecord) (repos : List Repository) :
    (filter_new_loop store repos).1 =
      repos.filter (fun r => (find_record store r.full_name).isNone) ∧
    (filter_new_loop store repos).2 =
      repos.map (fun r =>
        match find_record store r.full_name with
        | some record => annotate_from_record record r
        | none => r) := by
  induction repos with
  | nil => exact ⟨rfl, rfl⟩
  | cons repo rest ih =>
    unfold filter_new_loop
    rw [contains_existing_names store repo.full_name]
    cases h : find_record store repo.full_name with
    | none =>
      simp only [Option.isSome_none, Bool.false_eq_true, if_false, List.filter_cons,
        Option.isNone_none, List.map_cons, h]
      exact ⟨by simp [ih.1], by simp [ih.2]⟩
    | some record =>
      simp only [Option.isSome_some, if_true, List.filter_cons, h, Option.isNone_some,
        List.map_cons]
      exact ⟨by simp [ih.1], by simp [ih.2]⟩

/-- Claim C3: `filterNew` returns exactly the input entries with no stored
record, in order and unmodified; every matched input entry is annotated with
the stored `first_seen_at` and the stored appearance count plus one; and the
store is unchanged by the call. -/
theorem claim_C3 (store : List RepositoryRecord) (repos : List Repository)
    (d : Option Int) :
    (filter_new_repos store repos d).1 = store ∧
    (filter_new_repos store repos d).2.1 =
      repos.filter (fun r => (find_record store r.full_name).isNone) ∧
    (filter_new_repos store repos d).2.2 =
      repos.map (fun r =>
        match find_record store r.full_name with
        | some record =>
          { r with
            first_seen_at := record.first_seen_at
            appearance_count := record.appearance_count + 1 }
        | none => r) := by
  refine ⟨rfl, ?_, ?_⟩
  · exact (filter_new_loop_spec store repos).1
  · exact (filter_new_loop_spec store repos).2

/-! Lemmas about the row operations of `save_repositories`. -/

theorem find_record_append_one (store : List RepositoryRecord) (n : String)
    (r : RepositoryRecord) (h : find_record store n = none) (hr : r.full_name = n) :
    find_record (store ++ [r]) n = some r := by
  unfold find_record at h ⊢
  rw [List.find?_append, h]
  simp [List.find?, hr]

theorem find_record_update_first (store : List RepositoryRecord) (n : String)
    (f : RepositoryRecord → RepositoryRecord) (hf : ∀ r, (f r).full_name = r.full_name) :
    find_record (update_first_record n f store) n = (find_record store n).map f := by
  induction store with
  | nil => rfl
  | cons r rs ih =>
    by_cases h : r.full_name = n
    · have hb : (r.full_name == n) = true := by simp [h]
      have hfb : ((f r).full_name == n) = true := by simp [hf r, h]
      simp [update_first_record, find_record, List.find?, hb, hfb]
    · have hb : (r.full_name == n) = false := by simp [h]
      simp only [update_first_record, hb, if_false, find_record, List.find?, Bool.false_eq_true]
      exact ih

/-- Claim C1 (amended): for an entry whose identifier matches a stored record,
`persist` updates that record's `last_seen_at`, `stars`, `forks`, increments
`appearance_count` by exactly one, backfills the readme text only when the
stored one is empty, and leaves `first_seen_at` unchanged; for an entry with
no stored record it inserts a row carrying the entry's fields INCLUDING its
`appearance_count` (which is 1 for a default-initialized entry, but is not
forced to 1).  Persisting the same unchanged entry twice stores the entry's
count on insert and that count plus one after the second call, and
`first_seen_at` never changes after the first insert. -/
theorem claim_C1_amended (store : List RepositoryRecord) (repo : Repository) :
    (∀ ex, find_record store repo.full_name = some ex →
      find_record (save_repositories store [repo]) repo.full_name =
        some { ex with
          last_seen_at := repo.last_seen_at
          stars := repo.stars
          forks := repo.forks
          appearance_count := ex.appearance_count + 1
          readme_content :=
            if optStrTruthy repo.readme_content && !optStrTruthy ex.readme_content then
              repo.readme_content
            else ex.readme_content }) ∧
    (find_record store repo.full_name = none →
      save_repositories store [repo] = store ++ [RepositoryRecord.from_model repo] ∧
      (RepositoryRecord.from_model repo).appearance_count = repo.appearance_count ∧
      (RepositoryRecord.from_model repo).first_seen_at = repo.first_seen_at) ∧
    (find_record store repo.full_name = none →
      (find_record (save_repositories (save_repositories store [repo]) [repo])
          repo.full_name).map (fun r => (r.appearance_count, r.first_seen_at)) =
        some (repo.appearance_count + 1, repo.first_seen_at)) := by
  have hsave : ∀ st : List RepositoryRecord, save_repositories st [repo] =
      (match find_record st repo.full_name with
       | some _ => update_first_record repo.full_name (apply_reappearance repo) st
       | none => st ++ [RepositoryRecord.from_model repo]) := fun st => rfl
  refine ⟨?_, ?_, ?_⟩
  · intro ex hex
    rw [hsave store, hex]
    rw [find_record_update_first store repo.full_name (apply_reappearance repo)
      (fun r => rfl), hex]
    rfl
  · intro hnone
    rw [hsave store, hnone]
    exact ⟨rfl, rfl, rfl⟩
  · intro hnone
    have h1 : save_repositories store [repo] = store ++ [RepositoryRecord.from_model repo] := by
      rw [hsave store, hnone]
    have h2 : find_record (save_repositories store [repo]) repo.full_name =
        some (RepositoryRecord.from_model repo) := by
      rw [h1]
      exact find_record_append_one store repo.full_name _ hnone rfl
    rw [hsave (save_repositories store [repo]), h2]
    rw [find_record_update_first _ repo.full_name (apply_reappearance repo)
      (fun r => rfl), h2]
    rfl

/-- Witness for C1: persisting a fresh default entry twice leaves
`first_seen_at` at its original value and takes the appearance count from 1
to 2 — exactly one increment per subsequent call. -/
theorem claim_C1_witness :
    save_repositories [] [wRepoA] = [RepositoryRecord.from_model wRepoA] ∧
    (find_record (save_repositories (save_repositories [] [wRepoA]) [wRepoA]) "u/r").map
        (fun r => (r.appearance_count, r.first_seen_at)) = some (2, some 100) := by
  constructor
  · exact ((claim_C1_amended [] wRepoA).2.1 rfl).1
  · exact (claim_C1_amended [] wRepoA).2.2 rfl

/-- Counterexample for C1 as stated: persisting an entry with
`appearance_count = 2` into an empty store inserts a record with
`appearance_count = 2`, not the claimed 1 — the insert copies the entry's
count instead of forcing it to 1. -/
theorem claim_C1_counterexample :
    (find_record (save_repositories [] [wRepoCount2]) "u/r").map
        (fun r => r.appearance_count) = some 2 ∧
    (find_record (save_repositories [] [wRepoCount2]) "u/r").map
        (fun r => r.appearance_count) ≠ some 1 := by
  refine ⟨?_, ?_⟩ <;> decide

/-! Lemmas about the retry loop. -/

theorem fetch_attempts_all_fail (rd mr : Nat) (oracle : Nat → Except String (List Article))
    (l : List Nat) (h : ∀ a ∈ l, ∃ e, oracle a = .error e) :
    fetch_attempts rd mr oracle l =
      (none, l.length,
        l.filterMap (fun a => if a < mr - 1 then some (rd * (a + 1)) else none)) := by
  induction l with
  | nil => rfl
  | cons a rest ih =>
    obtain ⟨e, he⟩ := h a (List.mem_cons_self a rest)
    have hrest := ih (fun b hb => h b (List.mem_cons_of_mem a hb))
    unfold fetch_attempts
    rw [he, hrest]
    by_cases ha : a < mr - 1 <;> simp [ha, List.filterMap_cons]

theorem filterMap_bounded_eq_map (n : Nat) (g : Nat → Nat) (l : List Nat)
    (h : ∀ a ∈ l, a < n) :
    l.filterMap (fun a => if a < n then some (g a) else none) = l.map g := by
  induction l with
  | nil => rfl
  | cons a rest ih =>
    have ha := h a (List.mem_cons_self a rest)
    rw [List.filterMap_cons, List.map_cons, if_pos ha,
      ih (fun b hb => h b (List.mem_cons_of_mem a hb))]

theorem range_waits (mr rd : Nat) :
    (List.range mr).filterMap
        (fun a => if a < mr - 1 then some (rd * (a + 1)) else none) =
      (List.range (mr - 1)).map (fun i => rd * (i + 1)) := by
  cases mr with
  | zero => rfl
  | succ n =>
    rw [List.range_succ, List.filterMap_append]
    have h1 : (List.range n).filterMap
        (fun a => if a < n + 1 - 1 then some (rd * (a + 1)) else none) =
        (List.range n).map (fun i => rd * (i + 1)) := by
      refine filterMap_bounded_eq_map (n + 1 - 1) _ _ (fun a ha => ?_)
      simpa using List.mem_range.mp ha
    have h2 : ([n] : List Nat).filterMap
        (fun a => if a < n + 1 - 1 then some (rd * (a + 1)) else none) = [] := by
      simp
    rw [h1, h2, List.append_nil]
    simp

/-- Claim C5: against an endpoint failing every attempt, the scraper performs
exactly `max_retries` GET attempts (3 when the constructor argument is
absent), sleeps `attempt index × RETRY_DELAY` seconds between consecutive
attempts, returns no page rather than raising, and `scrape` returns the empty
sequence. -/
theorem claim_C5 (mr rd : Nat) (oracle : Nat → Except String (List Article))
    (now : Int) (limit : Nat) (e : Bool) (tok : Option String)
    (api : Repository → Except String ApiRepoData) (ord : List Nat)
    (h : ∀ a, a < mr → ∃ err, oracle a = .error err) :
    fetch_with_retry mr rd oracle =
      (none, mr, (List.range (mr - 1)).map (fun i => rd * (i + 1))) ∧
    scrape_trending mr rd oracle now limit e tok api ord = [] ∧
    scraper_max_retries none = 3 ∧ MAX_RETRIES = 3 ∧ RETRY_DELAY = 2 := by
  have hfetch : fetch_with_retry mr rd oracle =
      (none, mr, (List.range (mr - 1)).map (fun i => rd * (i + 1))) := by
    unfold fetch_with_retry
    rw [fetch_attempts_all_fail rd mr oracle (List.range mr)
      (fun a ha => h a (List.mem_range.mp ha))]
    rw [List.length_range, range_waits]
  refine ⟨hfetch, ?_, rfl, rfl, rfl⟩
  unfold scrape_trending
  rw [hfetch]

/-- Witness for C5: a scraper with `max_retries = 3`, base delay 2 against an
always-failing endpoint: exactly 3 attempts, sleeps of 2 then 4 seconds, no
page, and an empty scrape result. -/
theorem claim_C5_witness :
    fetch_with_retry 3 2 (fun _ => .error "ConnectionError") = (none, 3, [2, 4]) ∧
    scrape_trending 3 2 (fun _ => .error "ConnectionError") 0 50 false none
      (fun _ => .error "") [] = [] := by
  have h := claim_C5 3 2 (fun _ => .error "ConnectionError") 0 50 false none
    (fun _ => .error "") [] (fun a _ => ⟨"ConnectionError", rfl⟩)
  exact ⟨by simpa using h.1, h.2.1⟩

/-! A length lemma for `filterMap` over containers that all parse. -/

theorem length_filterMap_all_some {α β : Type} (f : α → Option β) (l : List α)
    (h : ∀ a ∈ l, (f a).isSome) : (l.filterMap f).length = l.length := by
  induction l with
  | nil => rfl
  | cons a rest ih =>
    have ha := h a (List.mem_cons_self a rest)
    obtain ⟨b, hb⟩ := Option.isSome_iff_exists.mp ha
    rw [List.filterMap_cons, hb, List.length_cons,
      ih (fun x hx => h x (List.mem_cons_of_mem a hx))]
    rfl

/-- Claim C10 (amended): `scrape` truncates the container list to the
requested limit BEFORE parsing — only the first `limit` containers are parsed
and containers among those missing their identifying link are skipped without
error; hence a page whose first `limit` containers are all parseable yields
exactly `limit` entries, but an unparseable container within the first
`limit` reduces the count even when later parseable containers exist. -/
theorem claim_C10_amended (mr rd : Nat) (oracle : Nat → Except String (List Article))
    (now : Int) (limit : Nat) (page : List Article) (tok : Option String)
    (api : Repository → Except String ApiRepoData) (ord : List Nat)
    (hfetch : (fetch_with_retry mr rd oracle).1 = some page) :
    scrape_trending mr rd oracle now limit false tok api ord =
      (page.take limit).filterMap (parse_repo_article now) ∧
    (∀ a : Article, a.h2LinkText = none → parse_repo_article now a = none) ∧
    ((∀ a ∈ page.take limit, (parse_repo_article now a).isSome) → limit ≤ page.length →
      (scrape_trending mr rd oracle now limit false tok api ord).length = limit) := by
  have hmain : scrape_trending mr rd oracle now limit false tok api ord =
      (page.take limit).filterMap (parse_repo_article now) := by
    unfold scrape_trending
    rw [hfetch]
    simp
  refine ⟨hmain, ?_, ?_⟩
  · intro a ha
    unfold parse_repo_article
    rw [ha]
  · intro hall hlen
    rw [hmain, length_filterMap_all_some _ _ hall, List.length_take]
    exact Nat.min_eq_left hlen

/-- Witness for C10: a page whose first (and only) container parses yields,
with limit 1, exactly one entry. -/
theorem claim_C10_witness :
    (scrape_trending 3 2 (fun _ => .ok [goodArticle]) 0 1 false none
      (fun _ => .error "") []).length = 1 := by
  exact (claim_C10_amended 3 2 (fun _ => .ok [goodArticle]) 0 1 [goodArticle] none
    (fun _ => .error "") [] rfl).2.2 (by decide) (by decide)

/-- Counterexample for C10 as stated: `pageC10` holds two parseable containers,
yet with limit 2 the scrape yields one entry, not two — the slice to `limit`
happens before parsing, so the unparseable first container consumes one of the
two slots. -/
theorem claim_C10_counterexample :
    2 ≤ pageC10.countP (fun a => (parse_repo_article 0 a).isSome) ∧
    (scrape_trending 3 2 (fun _ => .ok pageC10) 0 2 false none
      (fun _ => .error "") []).length = 1 ∧
    (scrape_trending 3 2 (fun _ => .ok pageC10) 0 2 false none
      (fun _ => .error "") []).length ≠ 2 := by
  refine ⟨?_, ?_, ?_⟩ <;> decide

/-! Lemmas for the concurrent enrichment batch. -/

theorem filterMap_getElem_range {α β : Type} (f : α → β) (l : List α) :
    (List.range l.length).filterMap (fun i => (l[i]?).map f) = l.map f := by
  induction l with
  | nil => rfl
  | cons a tl ih =>
    show (List.range (tl.length + 1)).filterMap (fun i => ((a :: tl)[i]?).map f) = _
    rw [List.range_succ_eq_map, List.filterMap_cons]
    simp only [List.getElem?_cons_zero, Option.map_some, List.filterMap_map]
    have : (fun i => ((a :: tl)[i]?).map f) ∘ Nat.succ = fun i => (tl[i]?).map f := by
      funext i
      simp [List.getElem?_cons_succ]
    rw [this, ih, List.map_cons]
    rfl

/-- Claim C6: with enrichment requested and a truthy credential, the batch
result is a permutation of the per-entry enrichment of the input (length N,
order given by completion, not input order); an entry whose metadata call
fails is returned with every field unchanged, so one failure among N leaves a
length-N result with exactly one entry equal to its pre-enrichment form (when
successful merges change the entries); and when the flag or the credential is
absent the entries pass through unchanged. -/
theorem claim_C6 (api : Repository → Except String ApiRepoData)
    (repos : List Repository) (ord : List Nat)
    (hperm : ord.Perm (List.range repos.length)) :
    (enrich_repos_from_api_batch api ord repos).length = repos.length ∧
    (enrich_repos_from_api_batch api ord repos).Perm
      (repos.map (enrich_repo_from_api api)) ∧
    (∀ r err, api r = .error err → enrich_repo_from_api api r = r) ∧
    (∀ mr rd oracle now limit tok ord2, optStrTruthy tok = false →
      scrape_trending mr rd oracle now limit true tok api ord2 =
        scrape_trending mr rd oracle now limit false tok api ord2) ∧
    (repos.countP (fun r => !(api r).isOk) = 1 →
      (∀ r ∈ repos, (api r).isOk = true → enrich_repo_from_api api r ∉ repos) →
      (enrich_repos_from_api_batch api ord repos).countP
        (fun r => decide (r ∈ repos)) = 1) := by
  have hbatch : (enrich_repos_from_api_batch api ord repos).Perm
      (repos.map (enrich_repo_from_api api)) := by
    unfold enrich_repos_from_api_batch
    have h1 := List.Perm.filterMap
      (fun i => (repos[i]?).map (enrich_repo_from_api api)) hperm
    rw [filterMap_getElem_range (enrich_repo_from_api api) repos] at h1
    exact h1
  refine ⟨?_, hbatch, ?_, ?_, ?_⟩
  · rw [hbatch.length_eq, List.length_map]
  · intro r err herr
    unfold enrich_repo_from_api
    rw [herr]
  · intro mr rd oracle now limit tok ord2 htok
    unfold scrape_trending
    cases (fetch_with_retry mr rd oracle).1 with
    | none => rfl
    | some page => simp [htok]
  · intro hone hchange
    rw [hbatch.countP_eq, List.countP_map]
    rw [List.countP_congr (q := fun r => !(api r).isOk) ?_]
    · exact hone
    · intro r hr
      cases h : api r with
      | error e =>
        have henr : enrich_repo_from_api api r = r := by
          unfold enrich_repo_from_api
          rw [h]
        simp [Function.comp, henr, hr, h, Except.isOk, Except.toBool]
      | ok d =>
        have hnot : enrich_repo_from_api api r ∉ repos :=
          hchange r hr (by rw [h]; rfl)
        simp [Function.comp, hnot, h, Except.isOk, Except.toBool]

/-- Witness for C6: a batch of two entries where the first metadata call
fails, completing in reversed order: the result has length 2 and exactly one
entry retains its pre-enrichment fields. -/
theorem claim_C6_witness :
    (enrich_repos_from_api_batch apiW [1, 0] [wRepoA, wRepoB]).length = 2 ∧
    (enrich_repos_from_api_batch apiW [1, 0] [wRepoA, wRepoB]).countP
      (fun r => decide (r ∈ [wRepoA, wRepoB])) = 1 := by
  have h := claim_C6 apiW [wRepoA, wRepoB] [1, 0] (by decide)
  exact ⟨h.1, h.2.2.2.2 (by decide) (by decide)⟩

/-! Lemmas for the run-exclusivity transition system. -/

theorem countP_set_eq {α : Type} (p : α → Bool) (l : List α) (i : Nat) (a b : α)
    (h : l[i]? = some a) :
    (l.set i b).countP p + (if p a then 1 else 0) =
      l.countP p + (if p b then 1 else 0) := by
  induction l generalizing i with
  | nil => simp at h
  | cons x xs ih =>
    cases i with
    | zero =>
      have hx : x = a := by simpa using h
      subst hx
      simp only [List.set_cons_zero, List.countP_cons]
      omega
    | succ i =>
      have h' : xs[i]? = some a := by simpa using h
      simp only [List.set_cons_succ, List.countP_cons]
      have := ih i h'
      omega

theorem sched_invariant (n : Nat) (s : SchedState) (h : SchedReachable n s) :
    runningCount s = (if s.lockHeld then 1 else 0) := by
  induction h with
  | init =>
    simp [initState, runningCount, List.countP_replicate]
  | step i s s' hr hstep ih =>
    cases hstep with
    | acquire hidle hlock =>
      have hc := countP_set_eq (fun p => p == TaskPhase.running) s.tasks i
        TaskPhase.idle TaskPhase.running hidle
      have hz : (if (fun p : TaskPhase => p == TaskPhase.running) TaskPhase.idle = true
          then 1 else 0) = 0 := rfl
      have ho : (if (fun p : TaskPhase => p == TaskPhase.running) TaskPhase.running = true
          then 1 else 0) = 1 := rfl
      rw [hz, ho] at hc
      rw [hlock] at ih
      have ih' : List.countP (fun p => p == TaskPhase.running) s.tasks = 0 := by
        simpa [runningCount] using ih
      show List.countP (fun p => p == TaskPhase.running)
        (s.tasks.set i TaskPhase.running) = 1
      omega
    | skipStep hidle hlock =>
      have hc := countP_set_eq (fun p => p == TaskPhase.running) s.tasks i
        TaskPhase.idle TaskPhase.skippedPhase hidle
      have hz : (if (fun p : TaskPhase => p == TaskPhase.running) TaskPhase.idle = true
          then 1 else 0) = 0 := rfl
      have hz' : (if (fun p : TaskPhase => p == TaskPhase.running) TaskPhase.skippedPhase = true
          then 1 else 0) = 0 := rfl
      rw [hz, hz'] at hc
      show List.countP (fun p => p == TaskPhase.running)
        (s.tasks.set i TaskPhase.skippedPhase) = if s.lockHeld = true then 1 else 0
      rw [← ih]
      simp only [runningCount]
      omega
    | finish hrun =>
      have hc := countP_set_eq (fun p => p == TaskPhase.running) s.tasks i
        TaskPhase.running TaskPhase.done hrun
      have ho : (if (fun p : TaskPhase => p == TaskPhase.running) TaskPhase.running = true
          then 1 else 0) = 1 := rfl
      have hz : (if (fun p : TaskPhase => p == TaskPhase.running) TaskPhase.done = true
          then 1 else 0) = 0 := rfl
      rw [ho, hz] at hc
      show List.countP (fun p => p == TaskPhase.running) (s.tasks.set i TaskPhase.done) = 0
      cases hl : s.lockHeld with
      | false =>
        rw [hl] at ih
        have ih' : List.countP (fun p => p == TaskPhase.running) s.tasks = 0 := by
          simpa [runningCount] using ih
        omega
      | true =>
        rw [hl] at ih
        have ih' : List.countP (fun p => p == TaskPhase.running) s.tasks = 1 := by
          simpa [runningCount] using ih
        omega

/-- Claim C7: in every reachable state at most one invocation is inside the
pipeline; and whenever a trigger fires while the lock is held, the only step
available to that invocation is the skip step, which leaves the pipeline-run
counter, the lock and every other invocation unchanged — the second trigger
produces no pipeline execution. -/
theorem claim_C7 (n : Nat) (s : SchedState) (hreach : SchedReachable n s) :
    runningCount s ≤ 1 ∧
    (∀ i s', s.lockHeld = true → s.tasks[i]? = some .idle → SchedStep i s s' →
      s' = { s with tasks := s.tasks.set i .skippedPhase } ∧
      s'.pipelineRuns = s.pipelineRuns ∧ s'.lockHeld = s.lockHeld ∧
      runningCount s' = runningCount s) := by
  constructor
  · rw [sched_invariant n s hreach]
    split <;> omega
  · intro i s' hlock hidle hstep
    cases hstep with
    | acquire h1 h2 => rw [hlock] at h2; cases h2
    | skipStep h1 h2 =>
      refine ⟨rfl, rfl, rfl, ?_⟩
      have hc := countP_set_eq (fun p => p == TaskPhase.running) s.tasks i
        TaskPhase.idle TaskPhase.skippedPhase h1
      have hz : (if (fun p : TaskPhase => p == TaskPhase.running) TaskPhase.idle = true
          then 1 else 0) = 0 := rfl
      have hz' : (if (fun p : TaskPhase => p == TaskPhase.running) TaskPhase.skippedPhase = true
          then 1 else 0) = 0 := rfl
      rw [hz, hz'] at hc
      show List.countP (fun p => p == TaskPhase.running)
        (s.tasks.set i TaskPhase.skippedPhase) = runningCount s
      simp only [runningCount]
      omega
    | finish h1 =>
      rw [hidle] at h1
      cases h1

/-- Witness for C7: after the first trigger acquires the lock, the state with
one running and one idle invocation is reachable and has at most one running
invocation, and the second trigger's only step is the skip step, which leaves
the pipeline counter at 1. -/
theorem claim_C7_witness :
    runningCount schedS1 ≤ 1 ∧ schedS2.pipelineRuns = schedS1.pipelineRuns := by
  have hreach : SchedReachable 2 schedS1 := by
    have h0 : SchedReachable 2 (initState 2) := SchedReachable.init
    exact SchedReachable.step 0 (initState 2) schedS1 h0
      (SchedStep.acquire 0 (initState 2) rfl rfl)
  have h := claim_C7 2 schedS1 hreach
  have hstep2 : SchedStep 1 schedS1 schedS2 :=
    SchedStep.skipStep 1 schedS1 rfl rfl
  exact ⟨h.1, (h.2 1 schedS2 rfl rfl hstep2).2.1⟩

/-! A length lemma for the scheduling loop. -/

theorem scheduler_loop_length (envs : List PipelineStages) :
    ∀ lock, (scheduler_loop lock envs).length = envs.length := by
  induction envs with
  | nil => intro lock; rfl
  | cons env rest ih =>
    intro lock
    show (scheduler_loop lock (env :: rest)).length = rest.length + 1
    unfold scheduler_loop
    rw [List.length_cons, ih]

/-- Claim C8: whatever the pipeline stages do, `_run_task` returns normally —
an exception becomes a `.failed` outcome, a normal pipeline result becomes
`.completed` — and the lock is available again after the call on every path;
consequently the scheduling loop processes every scheduled trigger. -/
theorem claim_C8 (env : PipelineStages) :
    ((run_task true env).2 = true) ∧
    (∀ err, execute_pipeline env = .error err → run_task true env = (.failed, true)) ∧
    (∀ res, execute_pipeline env = .ok res → run_task true env = (.completed, true)) ∧
    (∀ lock (envs : List PipelineStages),
      (scheduler_loop lock envs).length = envs.length) ∧
    (run_task false env = (.skippedRun, false)) := by
    refine ⟨?_, ?_, ?_, ?_, rfl⟩
    · unfold run_task
      cases h : execute_pipeline env <;> simp [h]
    · intro err herr
      unfold run_task
      rw [herr]
      rfl
    · intro res hres
      unfold run_task
      rw [hres]
      rfl
    · intro lock envs
      exact scheduler_loop_length envs lock

/-- Witness for C8: a pipeline whose first stage raises yields a failed run
with the lock released, and a two-trigger loop over failing pipelines still
attempts both triggers. -/
theorem claim_C8_witness :
    run_task true envFail = (.failed, true) ∧
    (scheduler_loop true [envFail, envFail]).length = 2 := by
  have h := claim_C8 envFail
  exact ⟨h.2.1 "boom" rfl, h.2.2.2.1 true [envFail, envFail]⟩

end GhTrending
